import Mathlib

/-!
Shallow embedding of the two Ansible modules of this repository:
`cloud/amazon/ec2_elb_tag.py` (the tag reconciler) and
`cloud/amazon/boto3_wait.py` (the waiter poller).

Python dictionaries are embedded as insertion-ordered association lists
(`PyDict`), with `dinsert` modelling `d[k] = v` (replace in place when the
key is present, append otherwise), `dlookup` modelling `d[k]` / `k in d`,
and `fromPairs` modelling the `dict(...)` constructor applied to a
key/value generator (later entries win).  Tag values coming from the
module's `tags` parameter are arbitrary YAML scalars, embedded as `PyVal`
with `pyStr` modelling Python's `str(...)` coercion.

The AWS ELB client is the external collaborator of the specification's
section 6; `cloudAddTags` / `cloudRemoveTags` model the effect of its
batched `AddTags` / `RemoveTags` operations on the resource's tag store,
and `describe_tags` returns that store as a list of `{Key, Value}`
records.
-/

abbrev Key := String

abbrev PyDict (α : Type) := List (Key × α)

/-- Scalar values a YAML `tags:` parameter can hold. -/
inductive PyVal : Type where
  | PStr (s : String)
  | PInt (n : Int)
  | PBool (b : Bool)
deriving DecidableEq

/-- Python's `str(...)` coercion on the scalars of `PyVal`. -/
def pyStr : PyVal → String
  | .PStr s => s
  | .PInt n => toString n
  | .PBool b => if b then "True" else "False"

/-- First-match lookup, the value `d[k]` of a Python dict (whose keys are
unique, so first match and only match coincide). -/
def dlookup (k : Key) : PyDict α → Option α
  | [] => none
  | p :: d => if p.1 = k then some p.2 else dlookup k d

/-- The key list of a dict, in insertion order (`for key in d`). -/
def dkeys (d : PyDict α) : List Key := d.map Prod.fst

/-- Python's `d[k] = v`: replace the value in place when `k` is already a
key, append a new entry otherwise. -/
def dinsert (k : Key) (v : α) (d : PyDict α) : PyDict α :=
  if (dlookup k d).isSome then d.map (fun p => if p.1 = k then (k, v) else p)
  else d ++ [(k, v)]

/-- Python's `del d[k]` (and the server-side effect of removing a tag). -/
def derase (k : Key) (d : PyDict α) : PyDict α :=
  d.filter (fun p => p.1 ≠ k)

/-- The `dict(...)` constructor applied to a list of key/value pairs:
entries are inserted left to right, so a later duplicate key overwrites
the earlier value. -/
def fromPairs (l : List (Key × String)) : PyDict String :=
  l.foldl (fun d p => dinsert p.1 p.2 d) []

/-- Last-match lookup: the value the `dict(...)` constructor would retain
for `k` from a raw record list. -/
def lookupLast (k : Key) (l : PyDict α) : Option α := dlookup k l.reverse

/-- The record `{'Key': k, 'Value': v}` built by the module, itself a
Python dict whose two keys are the literal strings `Key` and `Value`. -/
def tagRecord (k v : String) : PyDict String := [("Key", k), ("Value", v)]

/-- The record `{'Key': k}` sent to `remove_tags`. -/
def keyRecord (k : String) : PyDict String := [("Key", k)]

/-- The `Key` field of a tag record. -/
def recordKey (r : PyDict String) : String := (dlookup "Key" r).getD ""

/-- The `Value` field of a tag record. -/
def recordValue (r : PyDict String) : String := (dlookup "Value" r).getD ""

/-- Collaborator model (spec section 6): the effect of the batched ELB
`AddTags` call on the resource's tag store — each record sets its `Key`
to its `Value`. -/
def cloudAddTags (cloud : List (Key × String)) (payload : List (PyDict String)) :
    List (Key × String) :=
  payload.foldl (fun c r => dinsert (recordKey r) (recordValue r) c) cloud

/-- Collaborator model (spec section 6): the effect of the batched ELB
`RemoveTags` call — each record's `Key` is deleted from the store. -/
def cloudRemoveTags (cloud : List (Key × String)) (payload : List (PyDict String)) :
    List (Key × String) :=
  payload.foldl (fun c r => derase (recordKey r) c) cloud

/-- CPython's `dict.update(seq)` when `seq` is a list of two-field dicts:
each element is itself iterated, yielding its two KEYS, which are taken
as the (key, value) pair to insert.  For the module's
`{'Key': k, 'Value': v}` records this inserts the literal pair
`('Key', 'Value')`, not `(k, v)`.  (A record with a number of fields
other than two would raise ValueError in CPython; the records this
module builds always have exactly two, so that branch is unreachable and
is embedded as a no-op.) -/
def pyDictUpdateStep (acc : PyDict String) (item : PyDict String) : PyDict String :=
  match dkeys item with
  | [k, v] => dinsert k v acc
  | _ => acc

/-- See `pyDictUpdateStep`, applied to each element in order. -/
def pyDictUpdateSeq (d : PyDict String) (items : List (PyDict String)) : PyDict String :=
  items.foldl pyDictUpdateStep d

inductive ElbState : Type where
  | present
  | absent
  | list
deriving DecidableEq

/-- Failure outcomes of one `ec2_elb_tag` invocation: the mandatory tag
fetch erroring (`module.fail_json` from `get_lb_tags`), or an uncaught
Python TypeError from iterating / testing membership on `tags = None`. -/
inductive ElbFailure : Type where
  | tagFetchFailed
  | pyTypeError
deriving DecidableEq

/-- The shape of the `tags` field of the module's `exit_json`: a mapping
on every path except the absent-mode check-mode path, which rebuilds a
list of `{'Key', 'Value'}` records. -/
inductive TagsResult : Type where
  | mapping (d : PyDict String)
  | records (l : List (PyDict String))
deriving DecidableEq

/-- The AWS API calls a single module run can issue. -/
inductive ApiCall : Type where
  | describeTags
  | addTags (payload : List (PyDict String))
  | removeTags (payload : List (PyDict String))
deriving DecidableEq

instance {ε α : Type} [DecidableEq ε] [DecidableEq α] : DecidableEq (Except ε α) :=
  fun x y =>
    match x, y with
    | .error a, .error b =>
      match decEq a b with
      | .isTrue h => .isTrue (by rw [h])
      | .isFalse h => .isFalse (fun hh => h (Except.error.inj hh))
    | .ok a, .ok b =>
      match decEq a b with
      | .isTrue h => .isTrue (by rw [h])
      | .isFalse h => .isFalse (fun hh => h (Except.ok.inj hh))
    | .error _, .ok _ => .isFalse (fun hh => Except.noConfusion hh)
    | .ok _, .error _ => .isFalse (fun hh => Except.noConfusion hh)

/-- Everything observable about one `ec2_elb_tag` run: the AWS calls it
issued in order, the resource's tag store after the run, and either a
failure or the `(changed, tags)` pair passed to `exit_json`. -/
structure ElbOutcome : Type where
  calls : List ApiCall
  finalCloud : List (Key × String)
  result : Except ElbFailure (Bool × TagsResult)
deriving DecidableEq

/-- Embedding of `get_lb_tags`: calls `describe_tags` and converts the
provider's record list into a dict via
`dict((tag['Key'], tag['Value']) for tag in ...)`; a `ClientError`
becomes a fatal `fail_json`. -/
def get_lb_tags (fetchOK : Bool) (cloud : List (Key × String)) :
    Except ElbFailure (PyDict String) :=
  if fetchOK then .ok (fromPairs cloud) else .error .tagFetchFailed

/-- The comprehension
`[ key for key in tags if key not in actual_tags or actual_tags[key] != str(tags[key]) ]`
of the `state == 'present'` branch. -/
def tag_keys_to_add (tags : PyDict PyVal) (actual : PyDict String) : List Key :=
  (dkeys tags).filter (fun key =>
    match dlookup key actual, dlookup key tags with
    | none, _ => true
    | some av, some dv => av != pyStr dv
    | some _, none => false)

/-- The comprehension
`[ key for key in actual_tags if key in tags and actual_tags[key] == str(tags[key]) ]`
of the `state == 'absent'` branch. -/
def tag_keys_to_remove (tags : PyDict PyVal) (actual : PyDict String) : List Key :=
  (dkeys actual).filter (fun key =>
    match dlookup key tags with
    | none => false
    | some dv =>
      match dlookup key actual with
      | some av => av == pyStr dv
      | none => false)

/-- The present-branch comprehension evaluated against the module's raw
`tags` parameter: iterating `None` raises TypeError immediately. -/
def present_keys (tagsOpt : Option (PyDict PyVal)) (actual : PyDict String) :
    Except ElbFailure (List Key) :=
  match tagsOpt with
  | none => .error .pyTypeError
  | some tags => .ok (tag_keys_to_add tags actual)

/-- The comprehension
`[ { 'Key': key, 'Value': str(tags[key]) } for key in tag_keys_to_add ]`
(the keys are drawn from `tags`, so the lookup always succeeds and the
`getD` default is never used). -/
def tags_to_add (tags : PyDict PyVal) (keysToAdd : List Key) : List (PyDict String) :=
  keysToAdd.map (fun key => tagRecord key (pyStr ((dlookup key tags).getD (.PStr ""))))

/-- The absent-branch comprehension evaluated against the raw `tags`
parameter: the filter `key in tags` is only evaluated per iterated key,
so with `tags = None` it raises TypeError exactly when `actual_tags` is
non-empty. -/
def absent_keys (tagsOpt : Option (PyDict PyVal)) (actual : PyDict String) :
    Except ElbFailure (List Key) :=
  match tagsOpt, actual with
  | none, [] => .ok []
  | none, _ :: _ => .error .pyTypeError
  | some tags, actual => .ok (tag_keys_to_remove tags actual)

/-- Embedding of `main()` of `ec2_elb_tag.py`, parameterised by the
module's `state`, raw `tags` parameter (None when omitted), check mode,
and the collaborator: whether `describe_tags` succeeds and the
resource's current tag store. -/
def ec2_elb_tag_main (state : ElbState) (tagsOpt : Option (PyDict PyVal))
    (checkMode fetchOK : Bool) (cloud : List (Key × String)) : ElbOutcome :=
  match get_lb_tags fetchOK cloud with
  | .error e => ⟨[.describeTags], cloud, .error e⟩
  | .ok actual =>
    match state with
    | .present =>
      match tagsOpt with
      | none => ⟨[.describeTags], cloud, .error .pyTypeError⟩
      | some tags =>
        let keysToAdd := tag_keys_to_add tags actual
        if keysToAdd.isEmpty then
          ⟨[.describeTags], cloud, .ok (false, .mapping actual)⟩
        else
          let tagsToAdd := tags_to_add tags keysToAdd
          if checkMode then
            ⟨[.describeTags], cloud, .ok (true, .mapping (pyDictUpdateSeq actual tagsToAdd))⟩
          else
            let cloud2 := cloudAddTags cloud tagsToAdd
            match get_lb_tags fetchOK cloud2 with
            | .error e => ⟨[.describeTags, .addTags tagsToAdd], cloud2, .error e⟩
            | .ok actual2 =>
              ⟨[.describeTags, .addTags tagsToAdd, .describeTags], cloud2,
                .ok (true, .mapping actual2)⟩
    | .absent =>
      match absent_keys tagsOpt actual with
      | .error e => ⟨[.describeTags], cloud, .error e⟩
      | .ok keysToRemove =>
        if keysToRemove.isEmpty then
          ⟨[.describeTags], cloud, .ok (false, .mapping actual)⟩
        else if checkMode then
          let recs := ((dkeys actual).filter (fun k => k ∉ keysToRemove)).map
            (fun k => tagRecord k ((dlookup k actual).getD ""))
          ⟨[.describeTags], cloud, .ok (true, .records recs)⟩
        else
          let payload := keysToRemove.map keyRecord
          let cloud2 := cloudRemoveTags cloud payload
          match get_lb_tags fetchOK cloud2 with
          | .error e => ⟨[.describeTags, .removeTags payload], cloud2, .error e⟩
          | .ok actual2 =>
            ⟨[.describeTags, .removeTags payload, .describeTags], cloud2,
              .ok (true, .mapping actual2)⟩
    | .list => ⟨[.describeTags], cloud, .ok (false, .mapping actual)⟩

/-- The `changed` flag a run reported, when it exited successfully. -/
def changedOf (o : ElbOutcome) : Option Bool :=
  match o.result with
  | .ok (c, _) => some c
  | .error _ => none

/-- The key list of either shape of returned `tags`. -/
def tagsResultKeys : TagsResult → List Key
  | .mapping d => dkeys d
  | .records l => l.map recordKey

/-- Holds when the tag set a run returned (if it exited successfully) has
no duplicated key. -/
def resultKeysNodup (o : ElbOutcome) : Prop :=
  match o.result with
  | .ok (_, r) => (tagsResultKeys r).Nodup
  | .error _ => True

/-- Outcome of one condition check of the provider's waiter: the acceptor
matched (terminal success), a retryable non-match, or a non-retryable
provider error. -/
inductive CheckResult : Type where
  | success
  | retry
  | rejected (reason : String)

/-- Failure outcomes of one `boto3_wait` invocation. -/
inductive WaitFailure : Type where
  | unknownWaiter (service untilName : String)
  | rejected (reason : String)
  | timedOut (attempts : Nat)
deriving DecidableEq

/-- The collaborator of the poller (spec section 6): the condition names
it advertises, its per-waiter default configuration, and the result of
each successive condition check. -/
structure WaitClient : Type where
  waiterNames : List String
  defaultDelay : Nat
  defaultMaxAttempts : Nat
  check : PyDict PyVal → Nat → CheckResult

/-- Everything observable about one `boto3_wait` run: how many condition
checks went over the network, the inter-attempt delay in force, and the
terminal result. -/
structure WaitOutcomeS : Type where
  attemptsMade : Nat
  delayUsed : Nat
  result : Except WaitFailure Unit

/-- The provider waiter's bounded polling loop (`waiter.wait(**parameters)`):
poll until terminal success, a non-retryable error, or the attempt budget
is exhausted. -/
def waiter_wait (check : PyDict PyVal → Nat → CheckResult) (params : PyDict PyVal)
    (made : Nat) : Nat → Nat × Except WaitFailure Unit
  | 0 => (made, .error (.timedOut made))
  | n + 1 =>
    match check params made with
    | .success => (made + 1, .ok ())
    | .rejected r => (made + 1, .error (.rejected r))
    | .retry => waiter_wait check params (made + 1) n

/-- Embedding of `main()` of `boto3_wait.py`: reject an unadvertised
waiter name before any network attempt, otherwise override the waiter's
`delay` / `max_attempts` configuration when given and run the polling
loop. -/
def boto3_wait_main (client : WaitClient) (service untilName : String)
    (parameters : PyDict PyVal) (delayOpt maxAttemptsOpt : Option Nat) : WaitOutcomeS :=
  if untilName ∈ client.waiterNames then
    let d := delayOpt.getD client.defaultDelay
    let m := maxAttemptsOpt.getD client.defaultMaxAttempts
    let r := waiter_wait client.check parameters 0 m
    ⟨r.1, d, r.2⟩
  else ⟨0, 0, .error (.unknownWaiter service untilName)⟩

/-- A concrete collaborator used to instantiate hypotheses: one advertised
waiter, whose condition never becomes true. -/
def demoClient : WaitClient :=
  ⟨["cluster_running"], 15, 40, fun _ _ => .retry⟩

theorem dlookup_nil {α : Type} (k : Key) : dlookup k ([] : PyDict α) = none := rfl

theorem dlookup_cons {α : Type} (k : Key) (p : Key × α) (d : PyDict α) :
    dlookup k (p :: d) = if p.1 = k then some p.2 else dlookup k d := rfl

theorem dlookup_append {α : Type} (k : Key) (l₁ l₂ : PyDict α) :
    dlookup k (l₁ ++ l₂) = (dlookup k l₁).orElse fun _ => dlookup k l₂ := by
  induction l₁ with
  | nil => simp [dlookup_nil, Option.orElse]
  | cons p l ih =>
    by_cases h : p.1 = k
    · simp [dlookup_cons, h, Option.orElse]
    · simp [dlookup_cons, h, ih]

theorem mem_dkeys {α : Type} {k : Key} {d : PyDict α} :
    k ∈ dkeys d ↔ (dlookup k d).isSome := by
  induction d with
  | nil => simp [dkeys, dlookup_nil]
  | cons p t ih =>
    by_cases h : p.1 = k
    · simp [dkeys, dlookup_cons, h]
    · have h' : ¬(k = p.1) := fun hh => h hh.symm
      simp only [dkeys, List.map_cons, List.mem_cons, dlookup_cons, if_neg h, h',
        false_or]
      exact ih

theorem dlookup_map_set_self {α : Type} (k : Key) (v : α) (l : PyDict α) :
    dlookup k (l.map fun p => if p.1 = k then (k, v) else p)
      = if (dlookup k l).isSome then some v else none := by
  induction l with
  | nil => rfl
  | cons p t ih =>
    by_cases h : p.1 = k
    · simp [dlookup_cons, h]
    · simp [dlookup_cons, h, ih]

theorem dlookup_map_set_ne {α : Type} {k k' : Key} (v : α) (l : PyDict α) (h : k' ≠ k) :
    dlookup k' (l.map fun p => if p.1 = k then (k, v) else p) = dlookup k' l := by
  induction l with
  | nil => rfl
  | cons p t ih =>
    rw [List.map_cons, dlookup_cons, dlookup_cons]
    by_cases hp : p.1 = k
    · have h2 : ¬(p.1 = k') := by rw [hp]; exact Ne.symm h
      simp only [if_pos hp]
      rw [if_neg (show ¬((k, v).1 = k') from Ne.symm h), if_neg h2]
      exact ih
    · simp only [if_neg hp]
      by_cases hp' : p.1 = k'
      · rw [if_pos hp', if_pos hp']
      · rw [if_neg hp', if_neg hp']
        exact ih

theorem dlookup_dinsert_self {α : Type} (k : Key) (v : α) (d : PyDict α) :
    dlookup k (dinsert k v d) = some v := by
  unfold dinsert
  by_cases h : (dlookup k d).isSome
  · rw [if_pos h, dlookup_map_set_self, if_pos h]
  · rw [if_neg h, dlookup_append]
    rcases ho : dlookup k d with _ | w
    · simp [dlookup_cons, dlookup_nil, Option.orElse]
    · exact absurd (by simp [ho]) h

theorem dlookup_dinsert_ne {α : Type} {k k' : Key} (v : α) (d : PyDict α) (h : k' ≠ k) :
    dlookup k' (dinsert k v d) = dlookup k' d := by
  unfold dinsert
  by_cases hs : (dlookup k d).isSome
  · rw [if_pos hs, dlookup_map_set_ne v d h]
  · rw [if_neg hs, dlookup_append]
    rcases ho : dlookup k' d with _ | w
    · simp [dlookup_cons, dlookup_nil, Option.orElse, Ne.symm h]
    · simp [Option.orElse]

theorem lookupLast_dinsert_self {α : Type} (k : Key) (v : α) (d : PyDict α) :
    lookupLast k (dinsert k v d) = some v := by
  unfold lookupLast dinsert
  by_cases h : (dlookup k d).isSome
  · rw [if_pos h, ← List.map_reverse, dlookup_map_set_self]
    have hrev : (dlookup k d.reverse).isSome := by
      rw [← mem_dkeys] at h ⊢
      simp only [dkeys, List.map_reverse, List.mem_reverse] at h ⊢
      exact h
    rw [if_pos hrev]
  · rw [if_neg h, List.reverse_append, List.reverse_singleton]
    simp [dlookup_cons]

theorem lookupLast_dinsert_ne {α : Type} {k k' : Key} (v : α) (d : PyDict α) (h : k' ≠ k) :
    lookupLast k' (dinsert k v d) = lookupLast k' d := by
  unfold lookupLast dinsert
  by_cases hs : (dlookup k d).isSome
  · rw [if_pos hs, ← List.map_reverse, dlookup_map_set_ne v d.reverse h]
  · rw [if_neg hs, List.reverse_append, List.reverse_singleton]
    simp [dlookup_cons, Ne.symm h]

theorem dlookup_eq_none_of_forall {α : Type} {k : Key} {l : PyDict α}
    (h : ∀ p ∈ l, p.1 ≠ k) : dlookup k l = none := by
  induction l with
  | nil => rfl
  | cons p t ih =>
    rw [dlookup_cons, if_neg (h p (by simp))]
    exact ih fun q hq => h q (by simp [hq])

theorem lookupLast_derase_self {α : Type} (k : Key) (d : PyDict α) :
    lookupLast k (derase k d) = none := by
  unfold lookupLast derase
  refine dlookup_eq_none_of_forall fun p hp => ?_
  rw [List.mem_reverse, List.mem_filter] at hp
  simpa using hp.2

theorem dlookup_filter_ne {α : Type} {k k' : Key} (d : PyDict α) (h : k' ≠ k) :
    dlookup k' (d.filter fun p => p.1 ≠ k) = dlookup k' d := by
  induction d with
  | nil => rfl
  | cons p t ih =>
    rw [List.filter_cons, dlookup_cons]
    by_cases hp : p.1 = k
    · have h2 : ¬(p.1 = k') := by rw [hp]; exact Ne.symm h
      rw [if_neg (by simp [hp]), if_neg h2]
      exact ih
    · rw [if_pos (by simp [hp]), dlookup_cons]
      by_cases hp' : p.1 = k'
      · rw [if_pos hp', if_pos hp']
      · rw [if_neg hp', if_neg hp']
        exact ih

theorem lookupLast_derase_ne {α : Type} {k k' : Key} (d : PyDict α) (h : k' ≠ k) :
    lookupLast k' (derase k d) = lookupLast k' d := by
  unfold lookupLast derase
  rw [← List.filter_reverse, dlookup_filter_ne d.reverse h]

theorem dlookup_fromPairs (k : Key) (l : List (Key × String)) :
    dlookup k (fromPairs l) = lookupLast k l := by
  induction l using List.reverseRecOn with
  | nil => rfl
  | append_singleton t p ih =>
    rw [fromPairs, List.foldl_append]
    show dlookup k (dinsert p.1 p.2 (fromPairs t)) = _
    by_cases h : p.1 = k
    · subst h
      rw [dlookup_dinsert_self, lookupLast, List.reverse_append,
        List.reverse_singleton]
      simp [dlookup_cons]
    · rw [dlookup_dinsert_ne _ _ (Ne.symm h), ih, lookupLast, lookupLast,
        List.reverse_append, List.reverse_singleton]
      simp [dlookup_cons, h]


theorem recordKey_tagRecord (k v : String) : recordKey (tagRecord k v) = k := by
  simp [recordKey, tagRecord, dlookup_cons]

theorem recordValue_tagRecord (k v : String) : recordValue (tagRecord k v) = v := by
  simp [recordValue, tagRecord, dlookup_cons]

theorem recordKey_keyRecord (k : String) : recordKey (keyRecord k) = k := by
  simp [recordKey, keyRecord, dlookup_cons]

theorem dkeys_map_set {α : Type} (k : Key) (v : α) (l : PyDict α) :
    dkeys (l.map fun p => if p.1 = k then (k, v) else p) = dkeys l := by
  induction l with
  | nil => rfl
  | cons p t ih =>
    simp only [dkeys, List.map_cons] at ih ⊢
    by_cases h : p.1 = k
    · rw [if_pos h]
      simp [h, ih]
    · rw [if_neg h]
      simp [ih]

theorem dkeys_dinsert_nodup {α : Type} (k : Key) (v : α) {d : PyDict α}
    (h : (dkeys d).Nodup) : (dkeys (dinsert k v d)).Nodup := by
  unfold dinsert
  by_cases hs : (dlookup k d).isSome
  · rw [if_pos hs, dkeys_map_set]
    exact h
  · rw [if_neg hs]
    have hk : k ∉ dkeys d := fun hm => hs (mem_dkeys.mp hm)
    simp only [dkeys, List.map_append]
    rw [List.nodup_append]
    refine ⟨h, by simp, ?_⟩
    intro a ha hb
    simp only [List.map_cons, List.map_nil, List.mem_singleton] at hb
    subst hb
    exact hk ha

theorem foldl_dinsert_nodup {α : Type} (l : List (Key × α)) :
    ∀ {acc : PyDict α}, (dkeys acc).Nodup →
      (dkeys (l.foldl (fun d p => dinsert p.1 p.2 d) acc)).Nodup := by
  induction l with
  | nil => intro acc h; exact h
  | cons p t ih => intro acc h; exact ih (dkeys_dinsert_nodup p.1 p.2 h)

theorem dkeys_fromPairs_nodup (l : List (Key × String)) :
    (dkeys (fromPairs l)).Nodup :=
  foldl_dinsert_nodup l (by simp [dkeys])

theorem pyDictUpdateStep_nodup {d : PyDict String} (item : PyDict String)
    (h : (dkeys d).Nodup) : (dkeys (pyDictUpdateStep d item)).Nodup := by
  unfold pyDictUpdateStep
  rcases hk : dkeys item with _ | ⟨k, tl⟩
  · exact h
  · rcases tl with _ | ⟨v, tl2⟩
    · exact h
    · rcases tl2 with _ | _
      · exact dkeys_dinsert_nodup k v h
      · exact h

theorem pyDictUpdateSeq_nodup (items : List (PyDict String)) :
    ∀ {d : PyDict String}, (dkeys d).Nodup → (dkeys (pyDictUpdateSeq d items)).Nodup := by
  induction items with
  | nil => intro d h; exact h
  | cons it t ih =>
    intro d h
    exact ih (pyDictUpdateStep_nodup it h)

theorem mem_tag_keys_to_add {k : Key} {tags : PyDict PyVal} {actual : PyDict String} :
    k ∈ tag_keys_to_add tags actual
      ↔ ∃ dv, dlookup k tags = some dv ∧ dlookup k actual ≠ some (pyStr dv) := by
  unfold tag_keys_to_add
  rw [List.mem_filter, mem_dkeys]
  constructor
  · rintro ⟨hs, hcond⟩
    rcases ht : dlookup k tags with _ | dv
    · rw [ht] at hs
      exact absurd hs (by simp)
    · refine ⟨dv, rfl, ?_⟩
      rw [ht] at hcond
      rcases ha : dlookup k actual with _ | av
      · simp
      · rw [ha] at hcond
        have hb : (av != pyStr dv) = true := hcond
        intro hh
        rw [Option.some.injEq] at hh
        exact (bne_iff_ne.mp hb) hh
  · rintro ⟨dv, ht, hne⟩
    refine ⟨by simp [ht], ?_⟩
    rw [ht]
    rcases ha : dlookup k actual with _ | av
    · rfl
    · show (av != pyStr dv) = true
      refine bne_iff_ne.mpr fun hh => hne ?_
      rw [ha, hh]

theorem mem_tag_keys_to_remove {k : Key} {tags : PyDict PyVal} {actual : PyDict String} :
    k ∈ tag_keys_to_remove tags actual
      ↔ ∃ av dv, dlookup k actual = some av ∧ dlookup k tags = some dv
          ∧ av = pyStr dv := by
  unfold tag_keys_to_remove
  rw [List.mem_filter, mem_dkeys]
  constructor
  · rintro ⟨hs, hcond⟩
    rcases ht : dlookup k tags with _ | dv
    · rw [ht] at hcond
      exact absurd hcond (by simp)
    · rcases ha : dlookup k actual with _ | av
      · rw [ha] at hs
        exact absurd hs (by simp)
      · rw [ht, ha] at hcond
        have hb : (av == pyStr dv) = true := hcond
        exact ⟨av, dv, rfl, rfl, beq_iff_eq.mp hb⟩
  · rintro ⟨av, dv, ha, ht, hv⟩
    refine ⟨by simp [ha], ?_⟩
    rw [ht, ha]
    show (av == pyStr dv) = true
    exact beq_iff_eq.mpr hv

theorem lookupLast_cloudAddTags (f : Key → String) (L : List Key) :
    ∀ (cloud : List (Key × String)) (k : Key),
      lookupLast k (cloudAddTags cloud (L.map fun a => tagRecord a (f a)))
        = if k ∈ L then some (f k) else lookupLast k cloud := by
  induction L with
  | nil => intro cloud k; simp [cloudAddTags]
  | cons a t ih =>
    intro cloud k
    rw [List.map_cons]
    have hstep : cloudAddTags cloud (tagRecord a (f a) :: t.map fun x => tagRecord x (f x))
        = cloudAddTags (dinsert a (f a) cloud) (t.map fun x => tagRecord x (f x)) := by
      simp [cloudAddTags, recordKey_tagRecord, recordValue_tagRecord]
    rw [hstep, ih]
    by_cases ht : k ∈ t
    · rw [if_pos ht, if_pos (List.mem_cons_of_mem a ht)]
    · rw [if_neg ht]
      by_cases ha : k = a
      · subst ha
        rw [lookupLast_dinsert_self, if_pos (List.mem_cons_self k t)]
      · rw [lookupLast_dinsert_ne _ _ ha, if_neg (by simp [ha, ht])]

theorem lookupLast_cloudRemoveTags (R : List Key) :
    ∀ (cloud : List (Key × String)) (k : Key),
      lookupLast k (cloudRemoveTags cloud (R.map keyRecord))
        = if k ∈ R then none else lookupLast k cloud := by
  induction R with
  | nil => intro cloud k; simp [cloudRemoveTags]
  | cons a t ih =>
    intro cloud k
    rw [List.map_cons]
    have hstep : cloudRemoveTags cloud (keyRecord a :: t.map keyRecord)
        = cloudRemoveTags (derase a cloud) (t.map keyRecord) := by
      simp [cloudRemoveTags, recordKey_keyRecord]
    rw [hstep, ih]
    by_cases ht : k ∈ t
    · rw [if_pos ht, if_pos (List.mem_cons_of_mem a ht)]
    · rw [if_neg ht]
      by_cases ha : k = a
      · subst ha
        rw [lookupLast_derase_self, if_pos (List.mem_cons_self k t)]
      · rw [lookupLast_derase_ne _ ha, if_neg (by simp [ha, ht])]

theorem main_fetch_fail (state : ElbState) (tagsOpt : Option (PyDict PyVal))
    (cm : Bool) (cloud : List (Key × String)) :
    ec2_elb_tag_main state tagsOpt cm false cloud
      = ⟨[.describeTags], cloud, .error .tagFetchFailed⟩ := rfl

theorem main_list (tagsOpt : Option (PyDict PyVal)) (cm : Bool)
    (cloud : List (Key × String)) :
    ec2_elb_tag_main .list tagsOpt cm true cloud
      = ⟨[.describeTags], cloud, .ok (false, .mapping (fromPairs cloud))⟩ := rfl

theorem main_present_none (cm : Bool) (cloud : List (Key × String)) :
    ec2_elb_tag_main .present none cm true cloud
      = ⟨[.describeTags], cloud, .error .pyTypeError⟩ := rfl

theorem main_present_noop {tags : PyDict PyVal} {cloud : List (Key × String)}
    (cm : Bool) (h : tag_keys_to_add tags (fromPairs cloud) = []) :
    ec2_elb_tag_main .present (some tags) cm true cloud
      = ⟨[.describeTags], cloud, .ok (false, .mapping (fromPairs cloud))⟩ := by
  unfold ec2_elb_tag_main get_lb_tags
  simp [h]

theorem main_present_check {tags : PyDict PyVal} {cloud : List (Key × String)}
    (h : tag_keys_to_add tags (fromPairs cloud) ≠ []) :
    ec2_elb_tag_main .present (some tags) true true cloud
      = ⟨[.describeTags], cloud,
          .ok (true, .mapping (pyDictUpdateSeq (fromPairs cloud)
            (tags_to_add tags (tag_keys_to_add tags (fromPairs cloud)))))⟩ := by
  have he : (tag_keys_to_add tags (fromPairs cloud)).isEmpty = false := by
    rcases hc : tag_keys_to_add tags (fromPairs cloud) with _ | _
    · exact absurd hc h
    · rfl
  unfold ec2_elb_tag_main get_lb_tags
  simp [he]

theorem main_present_real {tags : PyDict PyVal} {cloud : List (Key × String)}
    (h : tag_keys_to_add tags (fromPairs cloud) ≠ []) :
    ec2_elb_tag_main .present (some tags) false true cloud
      = ⟨[.describeTags,
          .addTags (tags_to_add tags (tag_keys_to_add tags (fromPairs cloud))),
          .describeTags],
          cloudAddTags cloud (tags_to_add tags (tag_keys_to_add tags (fromPairs cloud))),
          .ok (true, .mapping (fromPairs (cloudAddTags cloud
            (tags_to_add tags (tag_keys_to_add tags (fromPairs cloud))))))⟩ := by
  have he : (tag_keys_to_add tags (fromPairs cloud)).isEmpty = false := by
    rcases hc : tag_keys_to_add tags (fromPairs cloud) with _ | _
    · exact absurd hc h
    · rfl
  unfold ec2_elb_tag_main get_lb_tags
  simp [he]

theorem main_absent_none_empty (cm : Bool) {cloud : List (Key × String)}
    (h : fromPairs cloud = []) :
    ec2_elb_tag_main .absent none cm true cloud
      = ⟨[.describeTags], cloud, .ok (false, .mapping (fromPairs cloud))⟩ := by
  unfold ec2_elb_tag_main get_lb_tags
  simp [h, absent_keys]

theorem main_absent_none_nonempty (cm : Bool) {cloud : List (Key × String)}
    {p : Key × String} {t : PyDict String} (h : fromPairs cloud = p :: t) :
    ec2_elb_tag_main .absent none cm true cloud
      = ⟨[.describeTags], cloud, .error .pyTypeError⟩ := by
  unfold ec2_elb_tag_main get_lb_tags
  simp [h, absent_keys]

theorem main_absent_noop {tags : PyDict PyVal} {cloud : List (Key × String)}
    (cm : Bool) (h : tag_keys_to_remove tags (fromPairs cloud) = []) :
    ec2_elb_tag_main .absent (some tags) cm true cloud
      = ⟨[.describeTags], cloud, .ok (false, .mapping (fromPairs cloud))⟩ := by
  unfold ec2_elb_tag_main get_lb_tags
  simp [absent_keys, h]

theorem main_absent_check {tags : PyDict PyVal} {cloud : List (Key × String)}
    (h : tag_keys_to_remove tags (fromPairs cloud) ≠ []) :
    ec2_elb_tag_main .absent (some tags) true true cloud
      = ⟨[.describeTags], cloud,
          .ok (true, .records (((dkeys (fromPairs cloud)).filter
              (fun k => k ∉ tag_keys_to_remove tags (fromPairs cloud))).map
            (fun k => tagRecord k ((dlookup k (fromPairs cloud)).getD ""))))⟩ := by
  have he : (tag_keys_to_remove tags (fromPairs cloud)).isEmpty = false := by
    rcases hc : tag_keys_to_remove tags (fromPairs cloud) with _ | _
    · exact absurd hc h
    · rfl
  unfold ec2_elb_tag_main get_lb_tags
  simp [absent_keys, he]

theorem main_absent_real {tags : PyDict PyVal} {cloud : List (Key × String)}
    (h : tag_keys_to_remove tags (fromPairs cloud) ≠ []) :
    ec2_elb_tag_main .absent (some tags) false true cloud
      = ⟨[.describeTags,
          .removeTags ((tag_keys_to_remove tags (fromPairs cloud)).map keyRecord),
          .describeTags],
          cloudRemoveTags cloud ((tag_keys_to_remove tags (fromPairs cloud)).map keyRecord),
          .ok (true, .mapping (fromPairs (cloudRemoveTags cloud
            ((tag_keys_to_remove tags (fromPairs cloud)).map keyRecord))))⟩ := by
  have he : (tag_keys_to_remove tags (fromPairs cloud)).isEmpty = false := by
    rcases hc : tag_keys_to_remove tags (fromPairs cloud) with _ | _
    · exact absurd hc h
    · rfl
  unfold ec2_elb_tag_main get_lb_tags
  simp [absent_keys, he]

theorem lookupLast_cloudAdd_tags_to_add (tags : PyDict PyVal) (L : List Key)
    (cloud : List (Key × String)) (k : Key) :
    lookupLast k (cloudAddTags cloud (tags_to_add tags L))
      = if k ∈ L then some (pyStr ((dlookup k tags).getD (.PStr "")))
        else lookupLast k cloud :=
  lookupLast_cloudAddTags (fun key => pyStr ((dlookup key tags).getD (.PStr ""))) L cloud k

/-- C1: the claim that a Present-mode dry run returns the same resultingTags
as the real run fails on the code: on `actual = {}` and
`desired = {"port": 80}` the check-mode path feeds the list of
`{'Key': ..., 'Value': ...}` records to `dict.update`, which inserts the
literal pair `('Key', 'Value')`, so the dry run reports tags
`{"Key": "Value"}` while the real run reports `{"port": "80"}`. -/
theorem present_dry_run_diverges_from_real :
    (ec2_elb_tag_main .present (some [("port", PyVal.PInt 80)]) true true []).result
      = .ok (true, .mapping [("Key", "Value")])
    ∧ (ec2_elb_tag_main .present (some [("port", PyVal.PInt 80)]) false true []).result
      = .ok (true, .mapping [("port", "80")])
    ∧ (ec2_elb_tag_main .present (some [("port", PyVal.PInt 80)]) true true []).result
      ≠ (ec2_elb_tag_main .present (some [("port", PyVal.PInt 80)]) false true []).result :=
  ⟨by decide, by decide, by decide⟩

/-- C4: the claim that the Absent-mode dry run returns a mapping fails on
the code: with `actual = {"env":"prod","tier":"web"}` and
`desired = {"env":"prod"}` the check-mode path rebuilds a LIST of
`{'Key','Value'}` records, while the real path returns the mapping
`{"tier":"web"}`. -/
theorem absent_dry_run_returns_record_list :
    (ec2_elb_tag_main .absent (some [("env", PyVal.PStr "prod")]) true true
        [("env", "prod"), ("tier", "web")]).result
      = .ok (true, .records [[("Key", "tier"), ("Value", "web")]])
    ∧ (ec2_elb_tag_main .absent (some [("env", PyVal.PStr "prod")]) false true
        [("env", "prod"), ("tier", "web")]).result
      = .ok (true, .mapping [("tier", "web")])
    ∧ ∀ d : PyDict String,
        (ec2_elb_tag_main .absent (some [("env", PyVal.PStr "prod")]) true true
          [("env", "prod"), ("tier", "web")]).result ≠ .ok (true, .mapping d) := by
  have h1 : (ec2_elb_tag_main .absent (some [("env", PyVal.PStr "prod")]) true true
      [("env", "prod"), ("tier", "web")]).result
        = .ok (true, .records [[("Key", "tier"), ("Value", "web")]]) := by decide
  refine ⟨h1, by decide, ?_⟩
  intro d hcon
  rw [h1] at hcon
  simp at hcon

/-- C6: List mode always reports changed=false with the fetched actual tag
set, leaves the resource untouched and issues no mutating API call,
whatever the desired tags parameter (even an omitted one) and whatever
the check-mode flag. -/
theorem list_mode_never_mutates (tagsOpt : Option (PyDict PyVal)) (cm : Bool)
    (cloud : List (Key × String)) :
    ec2_elb_tag_main .list tagsOpt cm true cloud
      = ⟨[.describeTags], cloud, .ok (false, .mapping (fromPairs cloud))⟩
    ∧ ∀ P : List (PyDict String),
        ApiCall.addTags P ∉ (ec2_elb_tag_main .list tagsOpt cm true cloud).calls
        ∧ ApiCall.removeTags P ∉ (ec2_elb_tag_main .list tagsOpt cm true cloud).calls := by
  refine ⟨rfl, fun P => ⟨?_, ?_⟩⟩
  · intro hmem
    rw [main_list] at hmem
    simp at hmem
  · intro hmem
    rw [main_list] at hmem
    simp at hmem

/-- C7: every run fetches the actual tags first (the head of the call
trace is always the describe call, in all modes), and a fetch failure
terminates the run as TagFetchFailed with no mutating call issued and
the resource untouched. -/
theorem fetch_first_and_fetch_failure_fatal (state : ElbState)
    (tagsOpt : Option (PyDict PyVal)) (cm : Bool) (cloud : List (Key × String)) :
    (ec2_elb_tag_main state tagsOpt cm false cloud
        = ⟨[.describeTags], cloud, .error .tagFetchFailed⟩)
    ∧ ∀ fok : Bool,
        ((ec2_elb_tag_main state tagsOpt cm fok cloud).calls).head?
          = some .describeTags := by
  refine ⟨main_fetch_fail state tagsOpt cm cloud, ?_⟩
  intro fok
  cases fok with
  | false => rfl
  | true =>
    cases state with
    | list => rfl
    | present =>
      cases tagsOpt with
      | none => rfl
      | some tags =>
        by_cases hL : tag_keys_to_add tags (fromPairs cloud) = []
        · rw [main_present_noop cm hL]
          rfl
        · cases cm with
          | false =>
            rw [main_present_real hL]
            rfl
          | true =>
            rw [main_present_check hL]
            rfl
    | absent =>
      cases tagsOpt with
      | none =>
        rcases hx : fromPairs cloud with _ | ⟨p, t⟩
        · rw [main_absent_none_empty cm hx]
          rfl
        · rw [main_absent_none_nonempty cm hx]
          rfl
      | some tags =>
        by_cases hR : tag_keys_to_remove tags (fromPairs cloud) = []
        · rw [main_absent_noop cm hR]
          rfl
        · cases cm with
          | false =>
            rw [main_absent_real hR]
            rfl
          | true =>
            rw [main_absent_check hR]
            rfl

/-- C8: a wait call whose waiter name is not among the condition names the
client advertises fails immediately with the unknown-waiter error and
performs zero condition checks (no network attempt). -/
theorem unknown_waiter_no_network (client : WaitClient) (service untilName : String)
    (parameters : PyDict PyVal) (delayOpt maxAttemptsOpt : Option Nat)
    (h : untilName ∉ client.waiterNames) :
    (boto3_wait_main client service untilName parameters delayOpt
        maxAttemptsOpt).attemptsMade = 0
    ∧ (boto3_wait_main client service untilName parameters delayOpt
        maxAttemptsOpt).result = .error (.unknownWaiter service untilName) := by
  unfold boto3_wait_main
  rw [if_neg h]
  exact ⟨rfl, rfl⟩

/-- C8 witness: the concrete client advertising only `cluster_running`
rejects the waiter name `bogus` with zero checks made. -/
theorem unknown_waiter_no_network_witness :
    (boto3_wait_main demoClient "emr" "bogus" [] none none).attemptsMade = 0
    ∧ (boto3_wait_main demoClient "emr" "bogus" [] none none).result
      = .error (.unknownWaiter "emr" "bogus") :=
  unknown_waiter_no_network demoClient "emr" "bogus" [] none none (by decide)

/-- C10 counterexample: the claim that an omitted tags parameter always
makes Present/Absent mode fail with a type error is refuted in Absent
mode with an empty actual tag set: the comprehension iterates nothing,
the `key in None` test is never evaluated, and the run succeeds exactly
like the empty no-op. -/
theorem none_tags_counterexample :
    (ec2_elb_tag_main .absent none false true []).result = .ok (false, .mapping [])
    ∧ (ec2_elb_tag_main .absent none false true []).result ≠ .error .pyTypeError :=
  ⟨rfl, by decide⟩

/-- C10 amended: with tags omitted (None), Present mode always fails with
an uncaught TypeError; Absent mode fails with the TypeError exactly when
the fetched actual set is non-empty, and silently succeeds as the
empty no-op when the actual set is empty. -/
theorem none_tags_behavior (cm : Bool) (cloud : List (Key × String)) :
    (ec2_elb_tag_main .present none cm true cloud).result = .error .pyTypeError
    ∧ (fromPairs cloud ≠ [] →
        (ec2_elb_tag_main .absent none cm true cloud).result = .error .pyTypeError)
    ∧ (fromPairs cloud = [] →
        (ec2_elb_tag_main .absent none cm true cloud).result
          = .ok (false, .mapping (fromPairs cloud))) := by
  refine ⟨rfl, ?_, ?_⟩
  · intro h
    rcases hx : fromPairs cloud with _ | ⟨p, t⟩
    · exact absurd hx h
    · rw [main_absent_none_nonempty cm hx]
  · intro h
    rw [main_absent_none_empty cm h]

/-- C10 witness: at a concrete non-empty actual set, both modes fail with
the TypeError when the tags parameter is omitted. -/
theorem none_tags_behavior_witness :
    (ec2_elb_tag_main .present none false true [("a", "b")]).result
      = .error .pyTypeError
    ∧ (ec2_elb_tag_main .absent none false true [("a", "b")]).result
      = .error .pyTypeError :=
  ⟨(none_tags_behavior false [("a", "b")]).1,
    (none_tags_behavior false [("a", "b")]).2.1 (by decide)⟩

theorem tagRecord_inj {a va k v : String} (h : tagRecord a va = tagRecord k v) :
    a = k ∧ va = v := by
  simp [tagRecord] at h
  exact h

theorem keyRecord_inj {a k : String} (h : keyRecord a = keyRecord k) : a = k := by
  simp [keyRecord] at h
  exact h

/-- C2: in Present mode the tags added are exactly the pairs
`(k, str(desired[k]))` for the keys of `desired` that are absent from the
actual set or carry a different value there; when that set is empty the
run reports changed=false with the actual set and issues no mutating
call. -/
theorem present_adds_exact_diff (tags : PyDict PyVal) (cloud : List (Key × String)) :
    (∀ k v,
      (∃ P, ApiCall.addTags P
            ∈ (ec2_elb_tag_main .present (some tags) false true cloud).calls
          ∧ tagRecord k v ∈ P)
        ↔ ∃ dv, dlookup k tags = some dv ∧ v = pyStr dv
            ∧ dlookup k (fromPairs cloud) ≠ some (pyStr dv))
    ∧ ((∀ k dv, dlookup k tags = some dv →
          dlookup k (fromPairs cloud) = some (pyStr dv)) →
        ec2_elb_tag_main .present (some tags) false true cloud
          = ⟨[.describeTags], cloud, .ok (false, .mapping (fromPairs cloud))⟩) := by
  by_cases hL : tag_keys_to_add tags (fromPairs cloud) = []
  · constructor
    · intro k v
      rw [main_present_noop false hL]
      constructor
      · rintro ⟨P, hP, _⟩
        simp at hP
      · rintro ⟨dv, ht, hv, hne⟩
        have hk : k ∈ tag_keys_to_add tags (fromPairs cloud) :=
          mem_tag_keys_to_add.mpr ⟨dv, ht, hne⟩
        rw [hL] at hk
        simp at hk
    · intro _
      exact main_present_noop false hL
  · constructor
    · intro k v
      rw [main_present_real hL]
      constructor
      · rintro ⟨P, hP, hrec⟩
        simp only [List.mem_cons, List.mem_singleton, List.not_mem_nil] at hP
        rcases hP with h1 | h2 | h3
        · exact ApiCall.noConfusion h1
        · have hPP := ApiCall.addTags.inj h2
          subst hPP
          simp only [tags_to_add, List.mem_map] at hrec
          rcases hrec with ⟨a, haL, heq⟩
          rcases tagRecord_inj heq with ⟨hak, hav⟩
          subst hak
          rcases mem_tag_keys_to_add.mp haL with ⟨dv, ht, hne⟩
          refine ⟨dv, ht, ?_, hne⟩
          rw [← hav, ht]
          rfl
        · rcases h3 with h3 | h3
          · exact ApiCall.noConfusion h3
          · exact absurd h3 (by simp)
      · rintro ⟨dv, ht, hv, hne⟩
        have hk : k ∈ tag_keys_to_add tags (fromPairs cloud) :=
          mem_tag_keys_to_add.mpr ⟨dv, ht, hne⟩
        refine ⟨tags_to_add tags (tag_keys_to_add tags (fromPairs cloud)), by simp, ?_⟩
        simp only [tags_to_add, List.mem_map]
        refine ⟨k, hk, ?_⟩
        rw [ht, hv]
        rfl
    · intro hall
      exfalso
      apply hL
      rcases hx : tag_keys_to_add tags (fromPairs cloud) with _ | ⟨a, t⟩
      · rfl
      · have ha : a ∈ tag_keys_to_add tags (fromPairs cloud) := by
          rw [hx]
          simp
        rcases mem_tag_keys_to_add.mp ha with ⟨dv, ht, hne⟩
        exact absurd (hall a dv ht) hne

/-- C2 witness: from `actual = {}` and `desired = {"port": 80}` (an
integer value) the real run adds exactly the record with key `port` and
the string value `80`. -/
theorem present_adds_exact_diff_witness :
    ∃ P, ApiCall.addTags P
        ∈ (ec2_elb_tag_main .present (some [("port", PyVal.PInt 80)]) false true []).calls
      ∧ tagRecord "port" "80" ∈ P :=
  ((present_adds_exact_diff [("port", .PInt 80)] []).1 "port" "80").mpr
    ⟨.PInt 80, by decide, by decide, by decide⟩

/-- C3: in Absent mode a key is removed exactly when it is present in the
actual set, present in the desired set, and its actual value equals the
string coercion of the desired value; when every desired entry's value
differs the run reports changed=false, leaves the resource untouched and
issues no mutating call. -/
theorem absent_removes_exact_diff (tags : PyDict PyVal) (cloud : List (Key × String)) :
    (∀ k,
      (∃ P, ApiCall.removeTags P
            ∈ (ec2_elb_tag_main .absent (some tags) false true cloud).calls
          ∧ keyRecord k ∈ P)
        ↔ ∃ av dv, dlookup k (fromPairs cloud) = some av ∧ dlookup k tags = some dv
            ∧ av = pyStr dv)
    ∧ ((∀ k av dv, dlookup k (fromPairs cloud) = some av →
          dlookup k tags = some dv → av ≠ pyStr dv) →
        ec2_elb_tag_main .absent (some tags) false true cloud
          = ⟨[.describeTags], cloud, .ok (false, .mapping (fromPairs cloud))⟩) := by
  by_cases hR : tag_keys_to_remove tags (fromPairs cloud) = []
  · constructor
    · intro k
      rw [main_absent_noop false hR]
      constructor
      · rintro ⟨P, hP, _⟩
        simp at hP
      · rintro ⟨av, dv, ha, ht, hv⟩
        have hk := mem_tag_keys_to_remove.mpr ⟨av, dv, ha, ht, hv⟩
        rw [hR] at hk
        simp at hk
    · intro _
      exact main_absent_noop false hR
  · constructor
    · intro k
      rw [main_absent_real hR]
      constructor
      · rintro ⟨P, hP, hrec⟩
        simp only [List.mem_cons, List.mem_singleton, List.not_mem_nil] at hP
        rcases hP with h1 | h2 | h3
        · exact ApiCall.noConfusion h1
        · have hPP := ApiCall.removeTags.inj h2
          subst hPP
          rw [List.mem_map] at hrec
          rcases hrec with ⟨a, haR, heq⟩
          have hak := keyRecord_inj heq
          subst hak
          exact mem_tag_keys_to_remove.mp haR
        · rcases h3 with h3 | h3
          · exact ApiCall.noConfusion h3
          · exact absurd h3 (by simp)
      · rintro ⟨av, dv, ha, ht, hv⟩
        have hk := mem_tag_keys_to_remove.mpr ⟨av, dv, ha, ht, hv⟩
        exact ⟨(tag_keys_to_remove tags (fromPairs cloud)).map keyRecord, by simp,
          List.mem_map.mpr ⟨k, hk, rfl⟩⟩
    · intro hall
      exfalso
      apply hR
      rcases hx : tag_keys_to_remove tags (fromPairs cloud) with _ | ⟨a, t⟩
      · rfl
      · have ha : a ∈ tag_keys_to_remove tags (fromPairs cloud) := by
          rw [hx]
          simp
        rcases mem_tag_keys_to_remove.mp ha with ⟨av, dv, ha2, ht, hv⟩
        exact absurd hv (hall a av dv ha2 ht)

/-- C3 witness: value-scoped deletion on the spec's example — with
`actual = {"env":"prod","tier":"web"}` and `desired = {"env":"staging"}`
the values differ, so nothing is removed, changed=false and the
resource is untouched. -/
theorem absent_removes_exact_diff_witness :
    ec2_elb_tag_main .absent (some [("env", PyVal.PStr "staging")]) false true
        [("env", "prod"), ("tier", "web")]
      = ⟨[ApiCall.describeTags], [("env", "prod"), ("tier", "web")],
          .ok (false, .mapping [("env", "prod"), ("tier", "web")])⟩ :=
  (absent_removes_exact_diff [("env", .PStr "staging")]
      [("env", "prod"), ("tier", "web")]).2
    (by
      intro k av dv ha ht
      rw [dlookup_cons] at ht
      by_cases h : "env" = k
      · rw [if_pos h] at ht
        subst h
        have hav : dlookup "env" (fromPairs [("env", "prod"), ("tier", "web")])
            = some "prod" := by decide
        rw [hav] at ha
        injection ha with h1
        injection ht with h2
        rw [← h1, ← h2]
        decide
      · rw [if_neg h] at ht
        exact absurd ht (by simp [dlookup_nil]))

theorem map_recordKey_map_tagRecord (f : Key → String) : ∀ (l : List Key),
    ((l.map fun k => tagRecord k (f k)).map recordKey) = l
  | [] => rfl
  | k :: t => by
    simp only [List.map_cons, recordKey_tagRecord]
    rw [map_recordKey_map_tagRecord f t]

/-- C9: every tag set the reconciler returns has unique keys — the
conversion of the provider's record list collapses duplicates, and each
of the five success shapes (list, present noop/check/real, absent
noop/check/real) yields a key list with no duplicate, for every input
including a raw cloud record list that itself contains duplicate keys. -/
theorem results_have_unique_keys (state : ElbState) (tagsOpt : Option (PyDict PyVal))
    (cm fok : Bool) (cloud : List (Key × String)) :
    resultKeysNodup (ec2_elb_tag_main state tagsOpt cm fok cloud)
    ∧ (dkeys (fromPairs cloud)).Nodup := by
  refine ⟨?_, dkeys_fromPairs_nodup cloud⟩
  cases fok with
  | false => exact trivial
  | true =>
    cases state with
    | list => exact dkeys_fromPairs_nodup cloud
    | present =>
      cases tagsOpt with
      | none => exact trivial
      | some tags =>
        by_cases hL : tag_keys_to_add tags (fromPairs cloud) = []
        · rw [main_present_noop cm hL]
          exact dkeys_fromPairs_nodup cloud
        · cases cm with
          | false =>
            rw [main_present_real hL]
            exact dkeys_fromPairs_nodup _
          | true =>
            rw [main_present_check hL]
            exact pyDictUpdateSeq_nodup _ (dkeys_fromPairs_nodup cloud)
    | absent =>
      cases tagsOpt with
      | none =>
        rcases hx : fromPairs cloud with _ | ⟨p, t⟩
        · rw [main_absent_none_empty cm hx]
          exact dkeys_fromPairs_nodup cloud
        · rw [main_absent_none_nonempty cm hx]
          exact trivial
      | some tags =>
        by_cases hR : tag_keys_to_remove tags (fromPairs cloud) = []
        · rw [main_absent_noop cm hR]
          exact dkeys_fromPairs_nodup cloud
        · cases cm with
          | false =>
            rw [main_absent_real hR]
            exact dkeys_fromPairs_nodup _
          | true =>
            rw [main_absent_check hR]
            show ((((dkeys (fromPairs cloud)).filter
                (fun k => k ∉ tag_keys_to_remove tags (fromPairs cloud))).map
                  (fun k => tagRecord k ((dlookup k (fromPairs cloud)).getD ""))).map
                recordKey).Nodup
            rw [map_recordKey_map_tagRecord
              (fun k => (dlookup k (fromPairs cloud)).getD "")
              ((dkeys (fromPairs cloud)).filter
                (fun k => k ∉ tag_keys_to_remove tags (fromPairs cloud)))]
            exact (dkeys_fromPairs_nodup cloud).filter _

/-- C5 counterexample: the claim requires changed=true on the first of
two consecutive real calls for EVERY desired set, but with an empty
desired set (or any already-satisfied one) the first call already
reports changed=false, in both Present and Absent mode. -/
theorem repeat_reconcile_counterexample :
    (ec2_elb_tag_main .present (some []) false true []).result
      = .ok (false, .mapping [])
    ∧ (ec2_elb_tag_main .absent (some []) false true []).result
      = .ok (false, .mapping []) :=
  ⟨rfl, rfl⟩

/-- C5 amended: two consecutive real reconcile calls against the same
resource leave the second call reporting changed=false, in both Present
and Absent mode; the first call reports changed=true exactly when its
computed diff is non-empty (not unconditionally). -/
theorem repeat_reconcile_second_unchanged (tags : PyDict PyVal)
    (cloud : List (Key × String)) :
    changedOf (ec2_elb_tag_main .present (some tags) false true
        ((ec2_elb_tag_main .present (some tags) false true cloud).finalCloud))
      = some false
    ∧ changedOf (ec2_elb_tag_main .absent (some tags) false true
        ((ec2_elb_tag_main .absent (some tags) false true cloud).finalCloud))
      = some false
    ∧ changedOf (ec2_elb_tag_main .present (some tags) false true cloud)
      = some (!(tag_keys_to_add tags (fromPairs cloud)).isEmpty)
    ∧ changedOf (ec2_elb_tag_main .absent (some tags) false true cloud)
      = some (!(tag_keys_to_remove tags (fromPairs cloud)).isEmpty) := by
  refine ⟨?_, ?_, ?_, ?_⟩
  · by_cases hL : tag_keys_to_add tags (fromPairs cloud) = []
    · rw [main_present_noop false hL]
      show changedOf (ec2_elb_tag_main .present (some tags) false true cloud)
        = some false
      rw [main_present_noop false hL]
      rfl
    · rw [main_present_real hL]
      show changedOf (ec2_elb_tag_main .present (some tags) false true
          (cloudAddTags cloud (tags_to_add tags (tag_keys_to_add tags (fromPairs cloud)))))
        = some false
      have hkey : tag_keys_to_add tags (fromPairs (cloudAddTags cloud
          (tags_to_add tags (tag_keys_to_add tags (fromPairs cloud))))) = [] := by
        rw [List.eq_nil_iff_forall_not_mem]
        intro k hk
        rcases mem_tag_keys_to_add.mp hk with ⟨dv, ht, hne⟩
        apply hne
        rw [dlookup_fromPairs, lookupLast_cloudAdd_tags_to_add]
        by_cases hkL : k ∈ tag_keys_to_add tags (fromPairs cloud)
        · rw [if_pos hkL, ht]
          rfl
        · rw [if_neg hkL]
          have hpv : dlookup k (fromPairs cloud) = some (pyStr dv) := by
            by_contra hc
            exact hkL (mem_tag_keys_to_add.mpr ⟨dv, ht, hc⟩)
          rw [← dlookup_fromPairs]
          exact hpv
      rw [main_present_noop false hkey]
      rfl
  · by_cases hR : tag_keys_to_remove tags (fromPairs cloud) = []
    · rw [main_absent_noop false hR]
      show changedOf (ec2_elb_tag_main .absent (some tags) false true cloud)
        = some false
      rw [main_absent_noop false hR]
      rfl
    · rw [main_absent_real hR]
      show changedOf (ec2_elb_tag_main .absent (some tags) false true
          (cloudRemoveTags cloud
            ((tag_keys_to_remove tags (fromPairs cloud)).map keyRecord)))
        = some false
      have hkey : tag_keys_to_remove tags (fromPairs (cloudRemoveTags cloud
          ((tag_keys_to_remove tags (fromPairs cloud)).map keyRecord))) = [] := by
        rw [List.eq_nil_iff_forall_not_mem]
        intro k hk
        rcases mem_tag_keys_to_remove.mp hk with ⟨av, dv, ha, ht, hv⟩
        rw [dlookup_fromPairs, lookupLast_cloudRemoveTags] at ha
        by_cases hkR : k ∈ tag_keys_to_remove tags (fromPairs cloud)
        · rw [if_pos hkR] at ha
          exact absurd ha (by simp)
        · rw [if_neg hkR, ← dlookup_fromPairs] at ha
          exact hkR (mem_tag_keys_to_remove.mpr ⟨av, dv, ha, ht, hv⟩)
      rw [main_absent_noop false hkey]
      rfl
  · by_cases hL : tag_keys_to_add tags (fromPairs cloud) = []
    · rw [main_present_noop false hL, hL]
      rfl
    · rw [main_present_real hL]
      have he : (tag_keys_to_add tags (fromPairs cloud)).isEmpty = false := by
        rcases hc : tag_keys_to_add tags (fromPairs cloud) with _ | _
        · exact absurd hc hL
        · rfl
      rw [he]
      rfl
  · by_cases hR : tag_keys_to_remove tags (fromPairs cloud) = []
    · rw [main_absent_noop false hR, hR]
      rfl
    · rw [main_absent_real hR]
      have he : (tag_keys_to_remove tags (fromPairs cloud)).isEmpty = false := by
        rcases hc : tag_keys_to_remove tags (fromPairs cloud) with _ | _
        · exact absurd hc hR
        · rfl
      rw [he]
      rfl

/-- C9 witness: a concrete run over a raw cloud record list that contains
a duplicated key still returns tag sets with unique keys. -/
theorem results_have_unique_keys_witness :
    resultKeysNodup (ec2_elb_tag_main .present (some [("env", PyVal.PStr "prod")])
      false true [("a", "1"), ("a", "2")])
    ∧ (dkeys (fromPairs [("a", "1"), ("a", "2")])).Nodup :=
  results_have_unique_keys .present (some [("env", .PStr "prod")]) false true
    [("a", "1"), ("a", "2")]

/-- C5 witness: a concrete pair of consecutive real runs — the first
Present call reports changed=true, the repeated call on the resulting
resource reports changed=false, and likewise for Absent mode. -/
theorem repeat_reconcile_second_unchanged_witness :
    changedOf (ec2_elb_tag_main .present (some [("env", PyVal.PStr "prod")]) false true
        ((ec2_elb_tag_main .present (some [("env", PyVal.PStr "prod")]) false true
          []).finalCloud)) = some false
    ∧ changedOf (ec2_elb_tag_main .absent (some [("env", PyVal.PStr "prod")]) false true
        ((ec2_elb_tag_main .absent (some [("env", PyVal.PStr "prod")]) false true
          []).finalCloud)) = some false
    ∧ changedOf (ec2_elb_tag_main .present (some [("env", PyVal.PStr "prod")])
        false true []) = some true
    ∧ changedOf (ec2_elb_tag_main .absent (some [("env", PyVal.PStr "prod")])
        false true []) = some false :=
  repeat_reconcile_second_unchanged [("env", .PStr "prod")] []

/-- C6 witness: a concrete List-mode run returns the fetched tags
unchanged and its call trace contains no mutating call. -/
theorem list_mode_never_mutates_witness :
    ec2_elb_tag_main .list (some [("env", PyVal.PStr "prod")]) false true [("a", "1")]
      = ⟨[.describeTags], [("a", "1")], .ok (false, .mapping [("a", "1")])⟩
    ∧ ApiCall.addTags [] ∉ (ec2_elb_tag_main .list (some [("env", PyVal.PStr "prod")])
        false true [("a", "1")]).calls
    ∧ ApiCall.removeTags [] ∉ (ec2_elb_tag_main .list (some [("env", PyVal.PStr "prod")])
        false true [("a", "1")]).calls :=
  ⟨(list_mode_never_mutates (some [("env", .PStr "prod")]) false [("a", "1")]).1,
    ((list_mode_never_mutates (some [("env", .PStr "prod")]) false [("a", "1")]).2 []).1,
    ((list_mode_never_mutates (some [("env", .PStr "prod")]) false [("a", "1")]).2 []).2⟩

/-- C7 witness: a concrete run whose fetch fails terminates as
TagFetchFailed after only the describe call, and a concrete successful
run also begins with the describe call. -/
theorem fetch_first_and_fetch_failure_fatal_witness :
    ec2_elb_tag_main .present (some [("env", PyVal.PStr "prod")]) false false [("a", "1")]
      = ⟨[.describeTags], [("a", "1")], .error .tagFetchFailed⟩
    ∧ ((ec2_elb_tag_main .present (some [("env", PyVal.PStr "prod")]) false true
        [("a", "1")]).calls).head? = some .describeTags :=
  ⟨(fetch_first_and_fetch_failure_fatal .present (some [("env", .PStr "prod")]) false
      [("a", "1")]).1,
    (fetch_first_and_fetch_failure_fatal .present (some [("env", .PStr "prod")]) false
      [("a", "1")]).2 true⟩
